import Mathlib

open scoped List

attribute [local semireducible] Rat.mul Rat.add Rat.sub Rat.inv

/-!
Verification development for the xycut-plus-plus reading-order library.

The Rust sources (src/traits.rs, src/histogram.rs, src/matching.rs,
src/utils.rs, src/core.rs) are shallowly embedded below.  f32 values are
modelled as exact rationals; the two square roots in matching.rs and
utils.rs are modelled by comparing squared quantities, which is equivalent
over exact reals because sqrt is monotone.  The f32 INFINITY sentinels are
modelled as Option (none = infinity).  The recursive cutter is embedded
with explicit fuel because the Rust recursion is not structurally
decreasing (and, as proved below, actually fails to terminate on some
inputs).  A tiny NaN-aware float type is used to model the partial_cmp
comparisons of the fallback sort.
-/

/-- Semantic label of a layout element, from src/traits.rs. -/
inductive SemanticLabel where
  | CrossLayout
  | HorizontalTitle
  | VerticalTitle
  | Vision
  | Regular
deriving DecidableEq, Repr

/-- A layout element, modelling the BoundingBox trait of src/traits.rs:
an id, the bounds (x1, y1, x2, y2), the center (cx, cy) (an independent
trait method, not forced to be the box midpoint), the mask-eligibility
flag and the semantic label.  The iou method is never used by the core
algorithm and is omitted. -/
structure Elt where
  id : Nat
  x1 : ℚ
  y1 : ℚ
  x2 : ℚ
  y2 : ℚ
  cx : ℚ
  cy : ℚ
  shouldMask : Bool
  label : SemanticLabel
deriving DecidableEq, Repr

/-- Configuration for the XY-Cut algorithm, from src/core.rs (XYCutConfig). -/
structure XYCutConfig where
  minCutThreshold : ℚ
  histogramResolutionScale : ℚ
  sameRowTolerance : ℚ
deriving DecidableEq, Repr

/-- Default configuration of src/core.rs: threshold 15.0 px, 1 bin per
2 pixels, 10.0 px same-row tolerance. -/
def defaultConfig : XYCutConfig :=
  { minCutThreshold := 15, histogramResolutionScale := 1/2, sameRowTolerance := 10 }

/-- Priority value for a semantic label (lower = higher priority),
from XYCut::label_priority in src/core.rs. -/
def labelPriority (label : SemanticLabel) : Nat :=
  match label with
  | .CrossLayout => 0
  | .HorizontalTitle => 1
  | .VerticalTitle => 1
  | .Vision => 2
  | .Regular => 3

/-- Total comparison on rationals, modelling f32 partial_cmp().unwrap()
on non-NaN values. -/
def qcmp (a b : ℚ) : Ordering :=
  if a < b then .lt else if b < a then .gt else .eq

/-- Total comparison on naturals, modelling u8 cmp. -/
def ncmp (a b : Nat) : Ordering :=
  if a < b then .lt else if b < a then .gt else .eq

/-- Ordered insert used to model Rust Vec::sort_by (a stable sort):
the element is placed before the first entry that compares at least as
large, so earlier input elements stay first among ties. -/
def insertOrdered {α : Type} (le : α → α → Bool) (a : α) : List α → List α
  | [] => [a]
  | b :: bs => if le a b then a :: b :: bs else b :: insertOrdered le a bs

/-- Stable insertion sort modelling Vec::sort_by. -/
def stableSort {α : Type} (le : α → α → Bool) (l : List α) : List α :=
  l.foldr (insertOrdered le) []

/-- Position comparator of XYCut::sort_by_position (src/core.rs lines
287-296): same row (vertical centers within the tolerance) compares by
horizontal center, otherwise by vertical center. -/
def posOrdering (cfg : XYCutConfig) (a b : Elt) : Ordering :=
  if |a.cy - b.cy| < cfg.sameRowTolerance then qcmp a.cx b.cx else qcmp a.cy b.cy

/-- Fallback sorting when no valid cuts are found, XYCut::sort_by_position.
The Rust code sorts (index, box) pairs, but the comparator only reads the
box, so we sort the boxes directly and map to ids. -/
def sortByPosition (cfg : XYCutConfig) (elements : List Elt) : List Nat :=
  (stableSort (fun a b => decide (posOrdering cfg a b ≠ Ordering.gt)) elements).map Elt.id

/-! Histogram engine, src/histogram.rs. -/

/-- Increment every histogram bin with index in [s, e), walking the list
with a running index (models the inner for-loop of the histogram
builders). -/
def bumpBins (s e : Nat) : Nat → List Nat → List Nat
  | _, [] => []
  | i, c :: rest => (if s ≤ i ∧ i < e then c + 1 else c) :: bumpBins s e (i + 1) rest

/-- Truncating f32-to-usize cast: negative values clamp to zero. -/
def ratToUsize (q : ℚ) : Nat := (max (Rat.floor q) 0).toNat

/-- Horizontal projection histogram, build_horizontal_histogram in
src/histogram.rs.  Each element increments every bin its y-span touches,
using floor/ceil of (coord - min)/bin-size clamped to the bin range. -/
def buildHorizontalHistogram (elements : List Elt) (yMin yMax : ℚ) (resolution : Nat) :
    List Nat :=
  elements.foldl (fun histogram element =>
    let binHeight := (yMax - yMin) / (resolution : ℚ)
    let startBin := (max (Rat.floor ((element.y1 - yMin) / binHeight)) 0).toNat
    let endBin := (min (Rat.ceil ((element.y2 - yMin) / binHeight)) (resolution : ℤ)).toNat
    bumpBins startBin (min endBin resolution) 0 histogram)
    (List.replicate resolution 0)

/-- Vertical projection histogram, build_vertical_histogram in
src/histogram.rs. -/
def buildVerticalHistogram (elements : List Elt) (xMin xMax : ℚ) (resolution : Nat) :
    List Nat :=
  elements.foldl (fun histogram element =>
    let binWidth := (xMax - xMin) / (resolution : ℚ)
    let startBin := (max (Rat.floor ((element.x1 - xMin) / binWidth)) 0).toNat
    let endBin := (min (Rat.ceil ((element.x2 - xMin) / binWidth)) (resolution : ℤ)).toNat
    bumpBins startBin (min endBin resolution) 0 histogram)
    (List.replicate resolution 0)

/-- Loop state of find_largest_gap in src/histogram.rs. -/
structure GapState where
  maxGapSize : Nat
  maxGapCenter : Option Nat
  currentGapSize : Nat
  currentGapStart : Option Nat
deriving DecidableEq, Repr

/-- One iteration of the find_largest_gap scan.  Note that, exactly as in
the source, the current-gap counters are reset only inside the branch
that records a new maximum. -/
def gapStep (minGapSize : Nat) (st : GapState) (ic : Nat × Nat) : GapState :=
  if ic.2 = 0 then
    { st with
      currentGapStart := if st.currentGapStart.isNone then some ic.1 else st.currentGapStart,
      currentGapSize := st.currentGapSize + 1 }
  else
    if st.currentGapSize ≥ minGapSize ∧ st.currentGapSize > st.maxGapSize then
      { maxGapSize := st.currentGapSize,
        maxGapCenter :=
          match st.currentGapStart with
          | some start => some (start + st.currentGapSize / 2)
          | none => st.maxGapCenter,
        currentGapSize := 0,
        currentGapStart := none }
    else st

/-- find_largest_gap from src/histogram.rs: scan the bins accumulating
runs of zero-count bins, then check the trailing run. -/
def findLargestGap (histogram : List Nat) (minGapSize : Nat) : Option Nat :=
  let final := histogram.enum.foldl (gapStep minGapSize) ⟨0, none, 0, none⟩
  if final.currentGapSize ≥ minGapSize ∧ final.currentGapSize > final.maxGapSize then
    match final.currentGapStart with
    | some start => some (start + final.currentGapSize / 2)
    | none => final.maxGapCenter
  else final.maxGapCenter

/-- XYCut::find_horizontal_cut from src/core.rs. -/
def findHorizontalCut (cfg : XYCutConfig) (elements : List Elt) (yMin yMax : ℚ) : Option ℚ :=
  let resolution := ratToUsize ((yMax - yMin) * cfg.histogramResolutionScale)
  let histogram := buildHorizontalHistogram elements yMin yMax resolution
  let minGapBins := ratToUsize (cfg.minCutThreshold * cfg.histogramResolutionScale)
  match findLargestGap histogram minGapBins with
  | some binIndex => some (yMin + ((binIndex : ℚ) / (resolution : ℚ)) * (yMax - yMin))
  | none => none

/-- XYCut::find_vertical_cut from src/core.rs (the debug printing is a
pure trace and is dropped). -/
def findVerticalCut (cfg : XYCutConfig) (elements : List Elt) (xMin xMax : ℚ) : Option ℚ :=
  let resolution := ratToUsize ((xMax - xMin) * cfg.histogramResolutionScale)
  let histogram := buildVerticalHistogram elements xMin xMax resolution
  let minGapBins := ratToUsize (cfg.minCutThreshold * cfg.histogramResolutionScale)
  match findLargestGap histogram minGapBins with
  | some binIndex => some (xMin + ((binIndex : ℚ) / (resolution : ℚ)) * (xMax - xMin))
  | none => none

/-- XYCut::split_horizontal: elements whose vertical center is strictly
above the cut go to the first group. -/
def splitHorizontal (elements : List Elt) (yCut : ℚ) : List Elt × List Elt :=
  elements.partition (fun e => decide (e.cy < yCut))

/-- XYCut::split_vertical: elements whose horizontal center is strictly
left of the cut go to the first group. -/
def splitVertical (elements : List Elt) (xCut : ℚ) : List Elt × List Elt :=
  elements.partition (fun e => decide (e.cx < xCut))

/-- Density quantity tau_d of XYCut::compute_density_ratio: sum of
aspect ratios of CrossLayout elements over the sum for all others,
skipping zero-height elements, with 1.0 when the denominator is zero. -/
def computeDensityTau (elements : List Elt) : ℚ :=
  let sums := elements.foldl (fun (acc : ℚ × ℚ) element =>
    let width := element.x2 - element.x1
    let height := element.y2 - element.y1
    if height = 0 then acc
    else
      match element.label with
      | .CrossLayout => (acc.1 + width / height, acc.2)
      | _ => (acc.1, acc.2 + width / height)) (0, 0)
  if sums.2 = 0 then 1 else sums.1 / sums.2

/-- Concatenation of the two recursive results; none propagates the
out-of-fuel marker. -/
def joinOrders (a b : Option (List Nat)) : Option (List Nat) :=
  match a, b with
  | some l, some r => some (l ++ r)
  | _, _ => none

/-- XYCut::recursive_cut from src/core.rs, with explicit fuel (the Rust
recursion has no structural measure; fuel 0 returns none, meaning the
computation did not finish).  Control flow mirrors the source: density
check, optional vertical-first attempt, then horizontal, then vertical,
then the positional fallback sort.  The source recomputes
find_vertical_cut in the second attempt; being pure it yields the same
value, so the embedding shares the call. -/
def recursiveCut (cfg : XYCutConfig) : Nat → List Elt → ℚ → ℚ → ℚ → ℚ → Option (List Nat)
  | 0, _, _, _, _, _ => none
  | Nat.succ fuel, elements, xMin, yMin, xMax, yMax =>
    match elements with
    | [] => some []
    | [e] => some [e.id]
    | _ :: _ :: _ =>
      match (if computeDensityTau elements > 9/10
             then findVerticalCut cfg elements xMin xMax else none) with
      | some xCut =>
          joinOrders
            (recursiveCut cfg fuel (splitVertical elements xCut).1 xMin yMin xCut yMax)
            (recursiveCut cfg fuel (splitVertical elements xCut).2 xCut yMin xMax yMax)
      | none =>
          match findHorizontalCut cfg elements yMin yMax with
          | some yCut =>
              joinOrders
                (recursiveCut cfg fuel (splitHorizontal elements yCut).1 xMin yMin xMax yCut)
                (recursiveCut cfg fuel (splitHorizontal elements yCut).2 xMin yCut xMax yMax)
          | none =>
              match findVerticalCut cfg elements xMin xMax with
              | some xCut =>
                  joinOrders
                    (recursiveCut cfg fuel (splitVertical elements xCut).1 xMin yMin xCut yMax)
                    (recursiveCut cfg fuel (splitVertical elements xCut).2 xCut yMin xMax yMax)
              | none => some (sortByPosition cfg elements)

/-! Partitioner, src/matching.rs and its helpers in src/utils.rs. -/

/-- compute_median_width from src/utils.rs: sort the widths (the Rust
comparator treats incomparable values as equal, which over rationals is
the plain order) and take the middle, averaging the two middle values for
even counts. -/
def computeMedianWidth (elements : List Elt) : ℚ :=
  match elements with
  | [] => 0
  | _ =>
    let widths := stableSort (fun a b => decide (¬ b < a))
      (elements.map (fun e => e.x2 - e.x1))
    let len := widths.length
    if len % 2 = 1 then widths.getD (len / 2) 0
    else (widths.getD (len / 2 - 1) 0 + widths.getD (len / 2) 0) / 2

/-- count_overlap from src/utils.rs: how many other elements overlap the
given element in both axes. -/
def countOverlap (element : Elt) (allElements : List Elt) : Nat :=
  (allElements.filter (fun other =>
    if other.id = element.id then false
    else decide (element.x1 < other.x2 ∧ element.x2 > other.x1 ∧
                 element.y1 < other.y2 ∧ element.y2 > other.y1))).length

/-- distance_to_nearest_text from src/utils.rs, tracking the squared
Euclidean gap distance to the nearest non-maskable element; none models
the f32 INFINITY start value.  Comparing squared distances is equivalent
to comparing the distances themselves because sqrt is monotone. -/
def distanceToNearestTextSq (element : Elt) (allElements : List Elt) : Option ℚ :=
  allElements.foldl (fun minDistance other =>
    if element.id = other.id then minDistance
    else if other.shouldMask then minDistance
    else
      let dx := if element.x2 < other.x1 then other.x1 - element.x2
                else if element.x1 > other.x2 then element.x1 - other.x2
                else 0
      let dy := if element.y2 < other.y1 then other.y1 - element.y2
                else if element.y1 > other.y2 then element.y1 - other.y2
                else 0
      let d2 := dx * dx + dy * dy
      match minDistance with
      | none => some d2
      | some m => if d2 < m then some d2 else some m) none

/-- Masking predicate applied to each element by partition_by_mask in
src/matching.rs: the element's own flag, or the wide-and-overlapping
cross-layout test, or the central-isolated-visual test.  The two square
roots of the source (distance to page center normalised by the page
diagonal, and the isolation distance) are modelled by squared
comparisons: sqrt(d)/sqrt(g) <= 1/5 iff 25*d <= g when g > 0, and the
f32 semantics make the centrality test false when the diagonal is zero
(0/0 is NaN, positive/0 is infinity). -/
def maskPred (elements : List Elt) (pageWidth pageHeight : ℚ) (element : Elt) : Bool :=
  let medianWidth := computeMedianWidth elements
  let threshold := 13/10 * medianWidth
  let pageCenterX := pageWidth / 2
  let pageCenterY := pageHeight / 2
  let pageDiag2 := pageWidth * pageWidth + pageHeight * pageHeight
  let width := element.x2 - element.x1
  let overlapCount := countOverlap element elements
  let isCrossLayoutWide := decide (threshold < width) && decide (2 ≤ overlapCount)
  let dx := element.cx - pageCenterX
  let dy := element.cy - pageCenterY
  let dist2 := dx * dx + dy * dy
  let isCentral := decide (pageDiag2 ≠ 0) && decide (25 * dist2 ≤ pageDiag2)
  let isIsolated :=
    match distanceToNearestTextSq element elements with
    | none => true
    | some d2 => decide (2500 < d2)
  let isGeometricMask := isCentral && isIsolated && element.shouldMask
  element.shouldMask || isCrossLayoutWide || isGeometricMask

/-- Result of pre-mask processing, MaskPartition in src/matching.rs. -/
structure MaskPartition where
  maskedElements : List Elt
  regularElements : List Elt
deriving DecidableEq, Repr

/-- partition_by_mask from src/matching.rs.  The source pushes each
element onto exactly one of the two vectors in input order, which is the
same as filtering by the masking predicate and its negation. -/
def partitionByMask (elements : List Elt) (pageWidth pageHeight : ℚ) : MaskPartition :=
  { maskedElements := elements.filter (maskPred elements pageWidth pageHeight),
    regularElements := elements.filter (fun e => !maskPred elements pageWidth pageHeight e) }

/-! Reinsertion matcher: the 4-component distance of src/utils.rs and
XYCut::merged_masked_elements of src/core.rs. -/

/-- True when the masked element carries the CrossLayout label,
modelling the matches! test in compute_distance_with_early_exit. -/
def isCrossLayout (m : Elt) : Bool :=
  match m.label with
  | .CrossLayout => true
  | _ => false

/-- Larger dimension of the masked element (weight scale d). -/
def maxDim (m : Elt) : ℚ := max (m.x2 - m.x1) (m.y2 - m.y1)

/-- Per-label weight multipliers from compute_distance_with_early_exit;
titles use the actual box orientation. -/
def multipliers (m : Elt) : ℚ × ℚ × ℚ × ℚ :=
  match m.label with
  | .CrossLayout => (1, 1, 1/10, 1)
  | .HorizontalTitle | .VerticalTitle =>
      if m.x2 - m.x1 > m.y2 - m.y1 then (1, 1/10, 1/10, 1) else (1/5, 1/10, 1, 1)
  | _ => (1, 1, 1, 1/10)

/-- Weight of the intersection component: d^2 times the label multiplier. -/
def w1 (m : Elt) : ℚ := maxDim m * maxDim m * (multipliers m).1

/-- Weight of the boundary-proximity component: d times the multiplier. -/
def w2 (m : Elt) : ℚ := maxDim m * (multipliers m).2.1

/-- Weight of the vertical-continuity component. -/
def w3 (m : Elt) : ℚ := 1 * (multipliers m).2.2.1

/-- Weight of the horizontal-ordering component: 1/d times the
multiplier (division by a zero dimension is a degenerate case the
claims never exercise; ℚ division yields 0 there, f32 yields infinity). -/
def w4 (m : Elt) : ℚ := 1 / maxDim m * (multipliers m).2.2.2

/-- Intersection component phi1: 0 when the boxes overlap on both axes,
100 otherwise. -/
def phi1 (m r : Elt) : ℚ :=
  if m.x1 < r.x2 ∧ m.x2 > r.x1 ∧ m.y1 < r.y2 ∧ m.y2 > r.y1 then 0 else 100

/-- Horizontal boundary gap of the two boxes. -/
def gapDx (m r : Elt) : ℚ :=
  if m.x2 < r.x1 then r.x1 - m.x2 else if m.x1 > r.x2 then m.x1 - r.x2 else 0

/-- Vertical boundary gap of the two boxes. -/
def gapDy (m r : Elt) : ℚ :=
  if m.y2 < r.y1 then r.y1 - m.y2 else if m.y1 > r.y2 then m.y1 - r.y2 else 0

/-- Boundary-proximity component phi2: sum of the axis gaps for
CrossLayout elements, minimum otherwise. -/
def phi2 (m r : Elt) : ℚ :=
  if isCrossLayout m then gapDx m r + gapDy m r else min (gapDx m r) (gapDy m r)

/-- Vertical-continuity component phi3. -/
def phi3 (m r : Elt) : ℚ :=
  if isCrossLayout m then
    if m.y1 > r.y2 then m.y1 - r.y2 else -m.y2
  else
    if r.y1 ≥ m.y2 then r.y1 - m.y1 else (m.y2 - r.y1) * 10

/-- Horizontal-ordering component phi4: the anchor's left edge. -/
def phi4 (r : Elt) : ℚ := r.x1

/-- Test distance < best where best may be the f32 INFINITY sentinel. -/
def ltBest (d : ℚ) : Option ℚ → Bool
  | none => true
  | some b => decide (d < b)

/-- Test distance > best where best may be the f32 INFINITY sentinel. -/
def gtBest (d : ℚ) : Option ℚ → Bool
  | none => false
  | some b => decide (b < d)

/-- compute_distance_with_early_exit from src/utils.rs: accumulate the
four weighted components in order, returning the partial sum as soon as
it exceeds the current best. -/
def computeDistanceWithEarlyExit (masked regular : Elt) (currentBest : Option ℚ) : ℚ :=
  if gtBest (w1 masked * phi1 masked regular) currentBest then
    w1 masked * phi1 masked regular
  else if gtBest (w1 masked * phi1 masked regular +
      w2 masked * phi2 masked regular) currentBest then
    w1 masked * phi1 masked regular + w2 masked * phi2 masked regular
  else if gtBest (w1 masked * phi1 masked regular + w2 masked * phi2 masked regular +
      w3 masked * phi3 masked regular) currentBest then
    w1 masked * phi1 masked regular + w2 masked * phi2 masked regular +
      w3 masked * phi3 masked regular
  else
    w1 masked * phi1 masked regular + w2 masked * phi2 masked regular +
      w3 masked * phi3 masked regular + w4 masked * phi4 regular

/-- Reference distance for the refinement claim, following the spec's
words: the full 4-component weighted sum computed without pruning. -/
def computeDistanceFull (masked regular : Elt) : ℚ :=
  w1 masked * phi1 masked regular + w2 masked * phi2 masked regular +
    w3 masked * phi3 masked regular + w4 masked * phi4 regular

/-- One iteration of the anchor-selection loop of
XYCut::merged_masked_elements (src/core.rs lines 360-377): look the id up
among the regular elements, skip anchors of strictly lower priority, and
update the running best on a strictly smaller distance.  The state is
(best distance, best id) with none modelling f32 INFINITY. -/
def anchorStep (masked : Elt) (regularElements : List Elt)
    (st : Option ℚ × Option Nat) (regularId : Nat) : Option ℚ × Option Nat :=
  match regularElements.find? (fun e => e.id == regularId) with
  | none => st
  | some regular =>
    if labelPriority regular.label < labelPriority masked.label then st
    else
      let distance := computeDistanceWithEarlyExit masked regular st.1
      if ltBest distance st.1 then (some distance, some regularId) else st

/-- Best-anchor search of XYCut::merged_masked_elements: scan the fixed
regular order. -/
def findBestAnchor (masked : Elt) (regularElements : List Elt)
    (regularOrder : List Nat) : Option Nat :=
  (regularOrder.foldl (anchorStep masked regularElements) (none, none)).2

/-- Anchor-selection loop using the unpruned reference distance, for the
refinement claim. -/
def anchorStepFull (masked : Elt) (regularElements : List Elt)
    (st : Option ℚ × Option Nat) (regularId : Nat) : Option ℚ × Option Nat :=
  match regularElements.find? (fun e => e.id == regularId) with
  | none => st
  | some regular =>
    if labelPriority regular.label < labelPriority masked.label then st
    else
      let distance := computeDistanceFull masked regular
      if ltBest distance st.1 then (some distance, some regularId) else st

/-- Best-anchor search without pruning. -/
def findBestAnchorFull (masked : Elt) (regularElements : List Elt)
    (regularOrder : List Nat) : Option Nat :=
  (regularOrder.foldl (anchorStepFull masked regularElements) (none, none)).2

/-- Model of Iterator::position on the result vector: index of the first
occurrence of the target id. -/
def position (target : Nat) : List Nat → Option Nat
  | [] => none
  | x :: xs => if x = target then some 0 else (position target xs).map (· + 1)

/-- Model of Vec::insert: place the value before index n.  All call
sites use n ≤ length, where this agrees with the Rust semantics. -/
def insertAt (n : Nat) (a : Nat) (l : List Nat) : List Nat :=
  l.take n ++ a :: l.drop n

/-- XYCut::compute_page_width: horizontal extent of the elements, zero
when there are none. -/
def computePageWidth : List Elt → ℚ
  | [] => 0
  | e :: es =>
      es.foldl (fun m x => max m x.x2) e.x2 - es.foldl (fun m x => min m x.x1) e.x1

/-- Insertion index of the no-anchor fallback of
XYCut::merged_masked_elements (src/core.rs lines 387-427): wide spanning
elements insert purely by vertical position, others before the first
same-column anchor below; ids not found among the regular elements are
skipped; if nothing matches the index is the result length. -/
def fallbackInsertPos (regularElements : List Elt) (result : List Nat) (masked : Elt) : Nat :=
  let maskedWidth := masked.x2 - masked.x1
  let pageWidth := computePageWidth regularElements
  let isSpanning := decide (maskedWidth > pageWidth * (3/5))
  result.findIdx (fun regularId =>
    match regularElements.find? (fun e => e.id == regularId) with
    | some regular =>
        if isSpanning then decide (regular.cy > masked.cy)
        else decide (|regular.x1 - masked.x1| < 100 ∧ regular.cy > masked.cy)
    | none => false)

/-- Placement of one masked element into the growing result, from
XYCut::merged_masked_elements: with a best anchor the masked id goes at
the anchor's current position plus one; otherwise the fallback position
is used. -/
def insertMasked (regularElements : List Elt)
    (regularOrder : List Nat) (result : List Nat) (masked : Elt) : List Nat :=
  match findBestAnchor masked regularElements regularOrder with
  | some matchedId =>
      match position matchedId result with
      | some pos => insertAt (pos + 1) masked.id result
      | none => result
  | none => insertAt (fallbackInsertPos regularElements result masked) masked.id result

/-- Comparator used to pre-sort the masked elements (src/core.rs lines
329-349): label priority first, then the positional order. -/
def maskedOrdering (cfg : XYCutConfig) (a b : Elt) : Ordering :=
  match ncmp (labelPriority a.label) (labelPriority b.label) with
  | .eq => posOrdering cfg a b
  | o => o

/-- XYCut::merged_masked_elements from src/core.rs: sort the masked
elements by priority then position, then fold them into the regular
order one at a time. -/
def mergedMaskedElements (cfg : XYCutConfig) (regularElements : List Elt)
    (regularOrder : List Nat) (maskedElements : List Elt) : List Nat :=
  let sortMasked := stableSort
    (fun a b => decide (maskedOrdering cfg a b ≠ Ordering.gt)) maskedElements
  sortMasked.foldl (insertMasked regularElements regularOrder) regularOrder

/-- XYCut::compute_order from src/core.rs, the entry point: partition,
recursively cut the regular elements, then merge the masked elements
back in.  The fuel is threaded to the cutter. -/
def computeOrder (cfg : XYCutConfig) (fuel : Nat) (elements : List Elt)
    (xMin yMin xMax yMax : ℚ) : Option (List Nat) :=
  match recursiveCut cfg fuel
      (partitionByMask elements (xMax - xMin) (yMax - yMin)).regularElements
      xMin yMin xMax yMax with
  | some regularOrder =>
      some (mergedMaskedElements cfg
        (partitionByMask elements (xMax - xMin) (yMax - yMin)).regularElements
        regularOrder
        (partitionByMask elements (xMax - xMin) (yMax - yMin)).maskedElements)
  | none => none

/-! NaN-aware model of the f32 comparisons in the fallback sort, for the
safety claim about degenerate geometry. -/

/-- Minimal f32 model distinguishing NaN from ordinary values. -/
inductive F32 where
  | nan : F32
  | val : ℚ → F32
deriving DecidableEq, Repr

/-- Subtraction; NaN propagates. -/
def F32.sub : F32 → F32 → F32
  | .val a, .val b => .val (a - b)
  | _, _ => .nan

/-- Absolute value; NaN propagates. -/
def F32.fabs : F32 → F32
  | .val a => .val |a|
  | .nan => .nan

/-- Strict less-than; any comparison with NaN is false. -/
def F32.flt : F32 → F32 → Bool
  | .val a, .val b => decide (a < b)
  | _, _ => false

/-- partial_cmp: no ordering exists when either side is NaN. -/
def F32.partialCmp : F32 → F32 → Option Ordering
  | .val a, .val b => some (qcmp a b)
  | _, _ => none

/-- The comparator of XYCut::sort_by_position over NaN-aware floats
(src/core.rs lines 287-296).  A none result models the panic of
partial_cmp(..).unwrap() on incomparable values. -/
def sortByPositionCmp (tolerance : ℚ) (acx acy bcx bcy : F32) : Option Ordering :=
  if ((acy.sub bcy).fabs).flt (F32.val tolerance) then acx.partialCmp bcx
  else acy.partialCmp bcy

/-! Concrete inputs used by the witnesses and counterexamples below. -/

/-- Configuration with a 1 px cut threshold, making min_gap_bins zero. -/
def cfgC3 : XYCutConfig :=
  { minCutThreshold := 1, histogramResolutionScale := 1/2, sameRowTolerance := 10 }

/-- Regular unit box at y in [2,3]. -/
def eltA : Elt :=
  { id := 0, x1 := 0, y1 := 2, x2 := 1, y2 := 3, cx := 1/2, cy := 5/2,
    shouldMask := false, label := .Regular }

/-- Regular unit box at y in [3,4]. -/
def eltB : Elt :=
  { id := 1, x1 := 0, y1 := 3, x2 := 1, y2 := 4, cx := 1/2, cy := 7/2,
    shouldMask := false, label := .Regular }

/-- Regular 10x10 box at the origin. -/
def regR : Elt :=
  { id := 0, x1 := 0, y1 := 0, x2 := 10, y2 := 10, cx := 5, cy := 5,
    shouldMask := false, label := .Regular }

/-- Maskable 10x10 box exactly overlapping regR. -/
def maskM : Elt :=
  { id := 1, x1 := 0, y1 := 0, x2 := 10, y2 := 10, cx := 5, cy := 5,
    shouldMask := true, label := .Regular }

/-- Maskable title box, id 1. -/
def maskT1 : Elt :=
  { id := 1, x1 := 0, y1 := 0, x2 := 20, y2 := 10, cx := 10, cy := 5,
    shouldMask := true, label := .HorizontalTitle }

/-- Maskable title box of the same priority and geometry as maskT1, id 2. -/
def maskT2 : Elt :=
  { id := 2, x1 := 0, y1 := 0, x2 := 20, y2 := 10, cx := 10, cy := 5,
    shouldMask := true, label := .HorizontalTitle }

/-- CrossLayout masked unit box at the origin. -/
def maskC8 : Elt :=
  { id := 10, x1 := 0, y1 := 0, x2 := 1, y2 := 1, cx := 1/2, cy := 1/2,
    shouldMask := true, label := .CrossLayout }

/-- Regular unit box exactly overlapping maskC8. -/
def regA8 : Elt :=
  { id := 0, x1 := 0, y1 := 0, x2 := 1, y2 := 1, cx := 1/2, cy := 1/2,
    shouldMask := false, label := .Regular }

/-- Regular box above maskC8 with a far-left edge, so its phi4 term is a
large negative number. -/
def regB8 : Elt :=
  { id := 1, x1 := -10000, y1 := 5, x2 := 1, y2 := 6, cx := -9999/2, cy := 11/2,
    shouldMask := false, label := .Regular }

/-- Regular 10x10 box used in the validation counterexample. -/
def eltC6 : Elt :=
  { id := 0, x1 := 0, y1 := 0, x2 := 10, y2 := 10, cx := 5, cy := 5,
    shouldMask := false, label := .Regular }

/-- Regular box near the page top. -/
def wE0 : Elt :=
  { id := 0, x1 := 0, y1 := 0, x2 := 10, y2 := 10, cx := 5, cy := 5,
    shouldMask := false, label := .Regular }

/-- Regular box lower on the page. -/
def wE1 : Elt :=
  { id := 1, x1 := 0, y1 := 50, x2 := 10, y2 := 60, cx := 5, cy := 55,
    shouldMask := false, label := .Regular }

/-- Wide maskable title between the two regular boxes. -/
def wM2 : Elt :=
  { id := 2, x1 := 0, y1 := 20, x2 := 90, y2 := 30, cx := 45, cy := 25,
    shouldMask := true, label := .HorizontalTitle }

/-! General lemmas about the list operations of the embedding. -/

/-- Ordered insertion produces a permutation of consing the element. -/
theorem insertOrdered_perm {α : Type} (le : α → α → Bool) (a : α) (l : List α) :
    insertOrdered le a l ~ a :: l := by
  induction l with
  | nil => exact List.Perm.refl _
  | cons b bs ih =>
    unfold insertOrdered
    by_cases h : le a b
    · rw [if_pos h]
    · rw [if_neg h]
      exact (ih.cons b).trans (List.Perm.swap a b bs)

/-- The stable sort permutes its input. -/
theorem stableSort_perm {α : Type} (le : α → α → Bool) (l : List α) :
    stableSort le l ~ l := by
  induction l with
  | nil => exact List.Perm.refl _
  | cons a as ih => exact (insertOrdered_perm le a _).trans (ih.cons a)

/-- Inserting at any index permutes to consing the element. -/
theorem insertAt_perm (n a : Nat) (l : List Nat) : insertAt n a l ~ a :: l := by
  unfold insertAt
  calc l.take n ++ a :: l.drop n ~ a :: (l.take n ++ l.drop n) := List.perm_middle
    _ = a :: l := by rw [List.take_append_drop]

/-- A member of the list has a position. -/
theorem position_eq_some_of_mem {a : Nat} {l : List Nat} (h : a ∈ l) :
    ∃ p, position a l = some p := by
  induction l with
  | nil => cases h
  | cons x xs ih =>
    unfold position
    by_cases hx : x = a
    · exact ⟨0, by rw [if_pos hx]⟩
    · rcases List.mem_cons.1 h with h1 | h1
      · exact absurd h1.symm hx
      · rcases ih h1 with ⟨q, hq⟩
        exact ⟨q + 1, by rw [if_neg hx, hq]; rfl⟩

/-- Filtering ignores an inserted element that fails the predicate. -/
theorem filter_insertAt (p : Nat → Bool) (n a : Nat) (l : List Nat) (ha : p a = false) :
    (insertAt n a l).filter p = l.filter p := by
  unfold insertAt
  rw [List.filter_append, List.filter_cons_of_neg (by simp [ha]), ← List.filter_append,
    List.take_append_drop]

/-- Destructor for a successful join of two recursive results. -/
theorem joinOrders_eq_some {a b : Option (List Nat)} {out : List Nat}
    (h : joinOrders a b = some out) :
    ∃ l r, a = some l ∧ b = some r ∧ out = l ++ r := by
  cases a with
  | none => simp [joinOrders] at h
  | some l =>
    cases b with
    | none => simp [joinOrders] at h
    | some r =>
      refine ⟨l, r, rfl, rfl, ?_⟩
      simpa [joinOrders] using h.symm

/-- The horizontal split partitions the elements. -/
theorem splitHorizontal_perm (elements : List Elt) (c : ℚ) :
    (splitHorizontal elements c).1 ++ (splitHorizontal elements c).2 ~ elements := by
  simp only [splitHorizontal, List.partition_eq_filter_filter]
  exact List.filter_append_perm _ _

/-- The vertical split partitions the elements. -/
theorem splitVertical_perm (elements : List Elt) (c : ℚ) :
    (splitVertical elements c).1 ++ (splitVertical elements c).2 ~ elements := by
  simp only [splitVertical, List.partition_eq_filter_filter]
  exact List.filter_append_perm _ _

/-- The fallback positional sort returns a permutation of the ids. -/
theorem sortByPosition_perm (cfg : XYCutConfig) (elements : List Elt) :
    sortByPosition cfg elements ~ elements.map Elt.id :=
  (stableSort_perm _ elements).map Elt.id

/-- Adjacency test: a appears with b directly after it somewhere in the
list. -/
def immediatelyPrecedes (a b : Nat) : List Nat → Bool
  | x :: y :: rest => (x == a && y == b) || immediatelyPrecedes a b (y :: rest)
  | _ => false

/-- Inserting directly after the position of a puts the new element
directly after an occurrence of a. -/
theorem immediatelyPrecedes_insertAt (b : Nat) : ∀ (l : List Nat) (a p : Nat),
    position a l = some p → immediatelyPrecedes a b (insertAt (p + 1) b l) = true := by
  intro l
  induction l with
  | nil => intro a p h; exact absurd h (by simp [position])
  | cons x xs ih =>
    intro a p h
    unfold position at h
    by_cases hx : x = a
    · rw [if_pos hx] at h
      injection h with h'
      subst h'
      have hins : insertAt (0 + 1) b (x :: xs) = x :: b :: xs := rfl
      rw [hins]
      simp [immediatelyPrecedes, hx]
    · rw [if_neg hx] at h
      cases hq : position a xs with
      | none => rw [hq] at h; cases h
      | some q =>
        rw [hq] at h
        injection h with h'
        subst h'
        have hstep : insertAt (q + 1 + 1) b (x :: xs) = x :: insertAt (q + 1) b xs := by
          simp [insertAt]
        rw [hstep]
        have hrec := ih a q hq
        cases hxs : insertAt (q + 1) b xs with
        | nil => rw [hxs] at hrec; exact absurd hrec (by simp [immediatelyPrecedes])
        | cons y rest =>
          rw [hxs] at hrec
          simp only [immediatelyPrecedes, hrec, Bool.or_true]

/-- Both halves of a successful join permute to the map of the split,
hence to the map of the original elements. -/
theorem joinOrders_perm {cfg : XYCutConfig} {n : Nat} {p1 p2 elements : List Elt}
    {a0 b0 c0 d0 a1 b1 c1 d1 : ℚ} {out : List Nat}
    (ih : ∀ (es : List Elt) (a b c d : ℚ) (o : List Nat),
      recursiveCut cfg n es a b c d = some o → o ~ es.map Elt.id)
    (hsplit : p1 ++ p2 ~ elements)
    (h : joinOrders (recursiveCut cfg n p1 a0 b0 c0 d0)
      (recursiveCut cfg n p2 a1 b1 c1 d1) = some out) :
    out ~ elements.map Elt.id := by
  rcases joinOrders_eq_some h with ⟨l, r, hl, hr, hout⟩
  subst hout
  calc l ++ r ~ p1.map Elt.id ++ p2.map Elt.id :=
        (ih p1 _ _ _ _ l hl).append (ih p2 _ _ _ _ r hr)
    _ = (p1 ++ p2).map Elt.id := (List.map_append _ _ _).symm
    _ ~ elements.map Elt.id := hsplit.map Elt.id

/-- Whenever the recursive cutter finishes, its output is a permutation
of the ids of the elements it was given. -/
theorem recursiveCut_perm (cfg : XYCutConfig) :
    ∀ (fuel : Nat) (elements : List Elt) (xMin yMin xMax yMax : ℚ) (out : List Nat),
      recursiveCut cfg fuel elements xMin yMin xMax yMax = some out →
      out ~ elements.map Elt.id := by
  intro fuel
  induction fuel with
  | zero =>
    intro elements _ _ _ _ out h
    exact absurd h (by simp [recursiveCut])
  | succ n ih =>
    intro elements xMin yMin xMax yMax out h
    obtain _ | ⟨a, _ | ⟨b, rest⟩⟩ := elements
    · simp only [recursiveCut, Option.some.injEq] at h
      subst h
      exact List.Perm.refl _
    · simp only [recursiveCut, Option.some.injEq] at h
      subst h
      exact List.Perm.refl _
    · simp only [recursiveCut] at h
      split at h
      · exact joinOrders_perm ih (splitVertical_perm _ _) h
      · split at h
        · exact joinOrders_perm ih (splitHorizontal_perm _ _) h
        · split at h
          · exact joinOrders_perm ih (splitVertical_perm _ _) h
          · injection h with h
            subst h
            exact sortByPosition_perm cfg _

/-- A best id produced by folding the anchor loop either was already in
the state or names an eligible regular element of the scanned order:
it occurs in the order, resolves to a regular element, and that
element's priority is at least the masked element's priority. -/
theorem anchorFold_some (masked : Elt) (regs : List Elt) :
    ∀ (order : List Nat) (st : Option ℚ × Option Nat) (aid : Nat),
      (order.foldl (anchorStep masked regs) st).2 = some aid →
      st.2 = some aid ∨ (aid ∈ order ∧ ∃ r, regs.find? (fun e => e.id == aid) = some r ∧
        labelPriority masked.label ≤ labelPriority r.label) := by
  intro order
  induction order with
  | nil => intro st aid h; exact Or.inl h
  | cons rid rest ih =>
    intro st aid h
    rw [List.foldl_cons] at h
    rcases ih (anchorStep masked regs st rid) aid h with h' | h'
    · unfold anchorStep at h'
      cases hfind : regs.find? (fun e => e.id == rid) with
      | none => rw [hfind] at h'; exact Or.inl h'
      | some regular =>
        rw [hfind] at h'
        dsimp only at h'
        split_ifs at h' with hp hlt
        · exact Or.inl h'
        · dsimp only at h'
          have hrid : rid = aid := Option.some.inj h'
          subst hrid
          exact Or.inr ⟨List.mem_cons_self rid rest, regular, hfind, Nat.le_of_not_lt hp⟩
        · exact Or.inl h'
    · exact Or.inr ⟨List.mem_cons_of_mem rid h'.1, h'.2⟩

/-- A best anchor returned by the matcher's scan occurs in the fixed
regular order, resolves to a regular element, and satisfies the
priority constraint. -/
theorem findBestAnchor_mem {masked : Elt} {regs : List Elt} {order : List Nat} {aid : Nat}
    (h : findBestAnchor masked regs order = some aid) :
    aid ∈ order ∧ ∃ r, regs.find? (fun e => e.id == aid) = some r ∧
      labelPriority masked.label ≤ labelPriority r.label := by
  unfold findBestAnchor at h
  rcases anchorFold_some masked regs order (none, none) aid h with h' | h'
  · cases h'
  · exact h'

/-- Placing one masked element permutes to consing its id, provided the
regular order's ids all occur in the current result. -/
theorem insertMasked_perm (regs : List Elt) (order result : List Nat) (masked : Elt)
    (hsub : ∀ x ∈ order, x ∈ result) :
    insertMasked regs order result masked ~ masked.id :: result := by
  cases hfind : findBestAnchor masked regs order with
  | none =>
    have heq : insertMasked regs order result masked =
        insertAt (fallbackInsertPos regs result masked) masked.id result := by
      unfold insertMasked
      rw [hfind]
    rw [heq]
    exact insertAt_perm _ _ _
  | some matchedId =>
    have hmem : matchedId ∈ result := hsub _ (findBestAnchor_mem hfind).1
    rcases position_eq_some_of_mem hmem with ⟨p, hp⟩
    have heq : insertMasked regs order result masked = insertAt (p + 1) masked.id result := by
      unfold insertMasked
      rw [hfind]
      simp only [hp]
    rw [heq]
    exact insertAt_perm _ _ _

/-- Folding the masked elements into the result appends exactly their
ids, up to permutation. -/
theorem mergedFold_perm (regs : List Elt) (order : List Nat) :
    ∀ (ms : List Elt) (result : List Nat), (∀ x ∈ order, x ∈ result) →
      ms.foldl (insertMasked regs order) result ~ ms.map Elt.id ++ result := by
  intro ms
  induction ms with
  | nil => intro result _; simp
  | cons m rest ih =>
    intro result hsub
    rw [List.foldl_cons]
    have h1 : insertMasked regs order result m ~ m.id :: result :=
      insertMasked_perm _ _ _ _ hsub
    have hsub' : ∀ x ∈ order, x ∈ insertMasked regs order result m :=
      fun x hx => (h1.mem_iff).2 (List.mem_cons_of_mem _ (hsub x hx))
    calc rest.foldl (insertMasked regs order) (insertMasked regs order result m)
        ~ rest.map Elt.id ++ insertMasked regs order result m := ih _ hsub'
      _ ~ rest.map Elt.id ++ (m.id :: result) := List.Perm.append_left _ h1
      _ ~ m.id :: (rest.map Elt.id ++ result) := List.perm_middle
      _ = (m :: rest).map Elt.id ++ result := by simp

/-- The merge step emits the regular order plus every masked id, up to
permutation. -/
theorem mergedMaskedElements_perm (cfg : XYCutConfig) (regs : List Elt)
    (order : List Nat) (maskedElements : List Elt) :
    mergedMaskedElements cfg regs order maskedElements ~
      order ++ maskedElements.map Elt.id := by
  unfold mergedMaskedElements
  calc (stableSort (fun a b => decide (maskedOrdering cfg a b ≠ Ordering.gt))
          maskedElements).foldl (insertMasked regs order) order
      ~ (stableSort (fun a b => decide (maskedOrdering cfg a b ≠ Ordering.gt))
          maskedElements).map Elt.id ++ order :=
        mergedFold_perm regs order _ order (fun x hx => hx)
    _ ~ maskedElements.map Elt.id ++ order :=
        List.Perm.append_right order ((stableSort_perm _ _).map Elt.id)
    _ ~ order ++ maskedElements.map Elt.id := List.perm_append_comm

/-- The partition's masked and regular id lists together permute to the
input id list. -/
theorem partition_ids_perm (elements : List Elt) (pw ph : ℚ) :
    (partitionByMask elements pw ph).maskedElements.map Elt.id ++
      (partitionByMask elements pw ph).regularElements.map Elt.id ~
      elements.map Elt.id := by
  unfold partitionByMask
  dsimp only
  rw [← List.map_append]
  exact (List.filter_append_perm _ _).map Elt.id

/-- Case split for the pruned distance: either no exit fired and it
equals the full sum, or an exit fired, in which case the returned value
exceeds the current best and (when the later weighted components are
nonnegative) is bounded by the full sum. -/
theorem earlyExit_cases (m r : Elt) (best : Option ℚ)
    (h2 : 0 ≤ w2 m * phi2 m r) (h3 : 0 ≤ w3 m * phi3 m r) (h4 : 0 ≤ w4 m * phi4 r) :
    computeDistanceWithEarlyExit m r best = computeDistanceFull m r ∨
    ∃ b, best = some b ∧ b < computeDistanceWithEarlyExit m r best ∧
      computeDistanceWithEarlyExit m r best ≤ computeDistanceFull m r := by
  cases best with
  | none =>
    left
    simp only [computeDistanceWithEarlyExit, gtBest, Bool.false_eq_true, if_false]
    rfl
  | some b =>
    unfold computeDistanceWithEarlyExit
    by_cases e1 : b < w1 m * phi1 m r
    · rw [if_pos (by simp [gtBest, e1])]
      right
      exact ⟨b, rfl, e1, by unfold computeDistanceFull; linarith⟩
    · rw [if_neg (by simp [gtBest, e1])]
      by_cases e2 : b < w1 m * phi1 m r + w2 m * phi2 m r
      · rw [if_pos (by simp [gtBest, e2])]
        right
        exact ⟨b, rfl, e2, by unfold computeDistanceFull; linarith⟩
      · rw [if_neg (by simp [gtBest, e2])]
        by_cases e3 : b < w1 m * phi1 m r + w2 m * phi2 m r + w3 m * phi3 m r
        · rw [if_pos (by simp [gtBest, e3])]
          right
          exact ⟨b, rfl, e3, by unfold computeDistanceFull; linarith⟩
        · rw [if_neg (by simp [gtBest, e3])]
          left
          rfl

/-- Under nonnegative later components, the pruned and unpruned anchor
loops run through identical states. -/
theorem anchorFold_pruned_eq_full (masked : Elt) (regs : List Elt)
    (H : ∀ r ∈ regs, 0 ≤ w2 masked * phi2 masked r ∧ 0 ≤ w3 masked * phi3 masked r ∧
      0 ≤ w4 masked * phi4 r) :
    ∀ (order : List Nat) (st : Option ℚ × Option Nat),
      order.foldl (anchorStep masked regs) st = order.foldl (anchorStepFull masked regs) st := by
  intro order
  induction order with
  | nil => intro st; rfl
  | cons rid rest ih =>
    intro st
    rw [List.foldl_cons, List.foldl_cons, ih]
    congr 1
    unfold anchorStep anchorStepFull
    cases hfind : regs.find? (fun e => e.id == rid) with
    | none => rfl
    | some regular =>
      have hr := List.mem_of_find?_eq_some hfind
      obtain ⟨h2, h3, h4⟩ := H regular hr
      dsimp only
      by_cases hp : labelPriority regular.label < labelPriority masked.label
      · rw [if_pos hp, if_pos hp]
      · rw [if_neg hp, if_neg hp]
        rcases earlyExit_cases masked regular st.1 h2 h3 h4 with heq | ⟨b, hb, hlt, hle⟩
        · rw [heq]
        · rw [hb] at hlt hle
          rw [hb]
          have hEE : ltBest (computeDistanceWithEarlyExit masked regular (some b))
              (some b) = false := by
            simp only [ltBest, decide_eq_false_iff_not, not_lt]
            exact le_of_lt hlt
          have hF : ltBest (computeDistanceFull masked regular) (some b) = false := by
            simp only [ltBest, decide_eq_false_iff_not, not_lt]
            exact le_of_lt (lt_of_lt_of_le hlt hle)
          rw [hEE, hF]
          simp

/-- With nonnegative later components for every regular element, the
early-exit scan selects the same anchor as the unpruned scan. -/
theorem findBestAnchor_pruned_eq_full (masked : Elt) (regs : List Elt) (order : List Nat)
    (H : ∀ r ∈ regs, 0 ≤ w2 masked * phi2 masked r ∧ 0 ≤ w3 masked * phi3 masked r ∧
      0 ≤ w4 masked * phi4 r) :
    findBestAnchor masked regs order = findBestAnchorFull masked regs order := by
  unfold findBestAnchor findBestAnchorFull
  rw [anchorFold_pruned_eq_full masked regs H order (none, none)]

/-- Placing a masked element whose id fails the predicate does not change
the filtered result. -/
theorem insertMasked_filter (regs : List Elt) (order result : List Nat) (masked : Elt)
    (p : Nat → Bool) (hm : p masked.id = false) :
    (insertMasked regs order result masked).filter p = result.filter p := by
  unfold insertMasked
  cases findBestAnchor masked regs order with
  | none => exact filter_insertAt p _ _ _ hm
  | some matchedId =>
    dsimp only
    cases position matchedId result with
    | none => rfl
    | some pos => exact filter_insertAt p _ _ _ hm

/-- Folding in masked elements whose ids all fail the predicate leaves
the filtered result unchanged. -/
theorem mergedFold_filter (regs : List Elt) (order : List Nat) (p : Nat → Bool) :
    ∀ (ms : List Elt) (result : List Nat), (∀ m ∈ ms, p m.id = false) →
      (ms.foldl (insertMasked regs order) result).filter p = result.filter p := by
  intro ms
  induction ms with
  | nil => intro result _; rfl
  | cons m rest ih =>
    intro result hm
    rw [List.foldl_cons, ih _ (fun x hx => hm x (List.mem_cons_of_mem m hx))]
    exact insertMasked_filter regs order result m p (hm m (List.mem_cons_self m rest))

/-- C1: for every element list with pairwise-distinct ids, every page
rectangle and every configuration, whenever compute_order returns an id
sequence (the recursion finished within the given fuel), that sequence
is a permutation of the input ids: same multiset, no duplicate, no
omitted id. -/
theorem computeOrder_permutation (cfg : XYCutConfig) (fuel : Nat) (elements : List Elt)
    (xMin yMin xMax yMax : ℚ) (out : List Nat)
    (_hids : (elements.map Elt.id).Nodup)
    (h : computeOrder cfg fuel elements xMin yMin xMax yMax = some out) :
    out ~ elements.map Elt.id := by
  unfold computeOrder at h
  cases hrec : recursiveCut cfg fuel
      (partitionByMask elements (xMax - xMin) (yMax - yMin)).regularElements
      xMin yMin xMax yMax with
  | none => rw [hrec] at h; simp at h
  | some ord =>
    rw [hrec] at h
    dsimp only at h
    injection h with h
    subst h
    calc mergedMaskedElements cfg
          (partitionByMask elements (xMax - xMin) (yMax - yMin)).regularElements ord
          (partitionByMask elements (xMax - xMin) (yMax - yMin)).maskedElements
        ~ ord ++ (partitionByMask elements (xMax - xMin)
            (yMax - yMin)).maskedElements.map Elt.id :=
          mergedMaskedElements_perm _ _ _ _
      _ ~ (partitionByMask elements (xMax - xMin) (yMax - yMin)).regularElements.map Elt.id ++
            (partitionByMask elements (xMax - xMin) (yMax - yMin)).maskedElements.map Elt.id :=
          List.Perm.append_right _
            (recursiveCut_perm cfg fuel _ xMin yMin xMax yMax ord hrec)
      _ ~ (partitionByMask elements (xMax - xMin) (yMax - yMin)).maskedElements.map Elt.id ++
            (partitionByMask elements (xMax - xMin) (yMax - yMin)).regularElements.map Elt.id :=
          List.perm_append_comm
      _ ~ elements.map Elt.id := partition_ids_perm elements _ _

/-- Witness for C1 at a concrete three-element page with one masked
title: the returned order is a permutation of the ids 0, 1, 2. -/
theorem computeOrder_permutation_witness :
    ([0, 1, 2] : List Nat) ~ [wE0, wE1, wM2].map Elt.id :=
  computeOrder_permutation defaultConfig 6 [wE0, wE1, wM2] 0 0 100 100 [0, 1, 2]
    (by decide) (by decide)

/-- C9: partition_by_mask yields masked and regular groups with disjoint
id sets whose union is the input id multiset, each group an
order-preserving sublist of the input, and the empty input yields the
empty partition. -/
theorem partitionByMask_invariants (elements : List Elt) (pw ph : ℚ)
    (hids : (elements.map Elt.id).Nodup) :
    (∀ i ∈ (partitionByMask elements pw ph).maskedElements.map Elt.id,
        i ∉ (partitionByMask elements pw ph).regularElements.map Elt.id) ∧
    ((partitionByMask elements pw ph).maskedElements.map Elt.id ++
        (partitionByMask elements pw ph).regularElements.map Elt.id ~
        elements.map Elt.id) ∧
    (partitionByMask elements pw ph).maskedElements.Sublist elements ∧
    (partitionByMask elements pw ph).regularElements.Sublist elements ∧
    (elements = [] → (partitionByMask elements pw ph).maskedElements = [] ∧
        (partitionByMask elements pw ph).regularElements = []) := by
  refine ⟨?_, partition_ids_perm elements pw ph, ?_, ?_, ?_⟩
  · have hnd : ((partitionByMask elements pw ph).maskedElements.map Elt.id ++
        (partitionByMask elements pw ph).regularElements.map Elt.id).Nodup :=
      ((partition_ids_perm elements pw ph).nodup_iff).2 hids
    intro i hi hir
    exact (List.disjoint_of_nodup_append hnd) hi hir
  · exact List.filter_sublist elements
  · exact List.filter_sublist elements
  · intro he
    subst he
    exact ⟨rfl, rfl⟩

/-- Witness for C9 at a concrete two-element input with one masked
title. -/
theorem partitionByMask_invariants_witness :
    (∀ i ∈ (partitionByMask [wE0, wM2] 100 100).maskedElements.map Elt.id,
        i ∉ (partitionByMask [wE0, wM2] 100 100).regularElements.map Elt.id) ∧
    ((partitionByMask [wE0, wM2] 100 100).maskedElements.map Elt.id ++
        (partitionByMask [wE0, wM2] 100 100).regularElements.map Elt.id ~
        [wE0, wM2].map Elt.id) ∧
    (partitionByMask [wE0, wM2] 100 100).maskedElements.Sublist [wE0, wM2] ∧
    (partitionByMask [wE0, wM2] 100 100).regularElements.Sublist [wE0, wM2] ∧
    ([wE0, wM2] = ([] : List Elt) → (partitionByMask [wE0, wM2] 100 100).maskedElements = [] ∧
        (partitionByMask [wE0, wM2] 100 100).regularElements = []) :=
  partitionByMask_invariants [wE0, wM2] 100 100 (by decide)

/-- C10: the final output restricted to the regular elements' ids is
exactly the order produced by the recursive cutter: reinsertion only
inserts masked ids and never removes, replaces or reorders the ids
already present. -/
theorem computeOrder_frame (cfg : XYCutConfig) (fuel : Nat) (elements : List Elt)
    (xMin yMin xMax yMax : ℚ) (out ord : List Nat)
    (hids : (elements.map Elt.id).Nodup)
    (hord : recursiveCut cfg fuel
      (partitionByMask elements (xMax - xMin) (yMax - yMin)).regularElements
      xMin yMin xMax yMax = some ord)
    (h : computeOrder cfg fuel elements xMin yMin xMax yMax = some out) :
    out.filter (fun i => decide (i ∈
      (partitionByMask elements (xMax - xMin) (yMax - yMin)).regularElements.map Elt.id)) =
      ord := by
  unfold computeOrder at h
  rw [hord] at h
  dsimp only at h
  injection h with h
  subst h
  have hperm := recursiveCut_perm cfg fuel
    (partitionByMask elements (xMax - xMin) (yMax - yMin)).regularElements
    xMin yMin xMax yMax ord hord
  have hnd : ((partitionByMask elements (xMax - xMin)
      (yMax - yMin)).maskedElements.map Elt.id ++
      (partitionByMask elements (xMax - xMin) (yMax - yMin)).regularElements.map
        Elt.id).Nodup :=
    ((partition_ids_perm elements _ _).nodup_iff).2 hids
  have hdisj := List.disjoint_of_nodup_append hnd
  have hmask : ∀ m ∈ stableSort (fun a b => decide (maskedOrdering cfg a b ≠ Ordering.gt))
      (partitionByMask elements (xMax - xMin) (yMax - yMin)).maskedElements,
      (fun i => decide (i ∈ (partitionByMask elements (xMax - xMin)
        (yMax - yMin)).regularElements.map Elt.id)) m.id = false := by
    intro m hm
    have hm' : m ∈ (partitionByMask elements (xMax - xMin) (yMax - yMin)).maskedElements :=
      ((stableSort_perm _ _).mem_iff).1 hm
    have hmid : m.id ∈ (partitionByMask elements (xMax - xMin)
        (yMax - yMin)).maskedElements.map Elt.id :=
      List.mem_map_of_mem Elt.id hm'
    simp only [decide_eq_false_iff_not]
    exact fun hc => hdisj hmid hc
  have hmerge : mergedMaskedElements cfg
      (partitionByMask elements (xMax - xMin) (yMax - yMin)).regularElements ord
      (partitionByMask elements (xMax - xMin) (yMax - yMin)).maskedElements =
      (stableSort (fun a b => decide (maskedOrdering cfg a b ≠ Ordering.gt))
        (partitionByMask elements (xMax - xMin) (yMax - yMin)).maskedElements).foldl
        (insertMasked (partitionByMask elements (xMax - xMin)
          (yMax - yMin)).regularElements ord) ord := rfl
  rw [hmerge, mergedFold_filter _ ord _ _ ord hmask]
  apply List.filter_eq_self.2
  intro a ha
  simp only [decide_eq_true_eq]
  exact (hperm.mem_iff).1 ha

/-- Witness for C10 at the same three-element page: filtering the output
to the regular ids returns the cutter's order. -/
theorem computeOrder_frame_witness :
    ([0, 1, 2] : List Nat).filter (fun i => decide (i ∈
      (partitionByMask [wE0, wE1, wM2] (100 - 0)
        (100 - 0)).regularElements.map Elt.id)) = [0, 1] :=
  computeOrder_frame defaultConfig 6 [wE0, wE1, wM2] 0 0 100 100 [0, 1, 2] [0, 1]
    (by decide) (by decide) (by decide)

/-- C2 (amended): when a best anchor exists, the masked id is inserted
immediately AFTER the anchor's current position in the result: the new
result is the old one with the masked id placed at index p + 1, where p
is the anchor's index, so the anchor's id immediately precedes the
masked id; without an eligible anchor the fallback position rules are
used. -/
theorem insertMasked_inserts_after_anchor (regs : List Elt) (order result : List Nat)
    (masked : Elt) (aid p : Nat)
    (ha : findBestAnchor masked regs order = some aid)
    (hp : position aid result = some p) :
    insertMasked regs order result masked = insertAt (p + 1) masked.id result ∧
    immediatelyPrecedes aid masked.id (insertMasked regs order result masked) = true := by
  have heq : insertMasked regs order result masked = insertAt (p + 1) masked.id result := by
    unfold insertMasked
    rw [ha]
    simp only [hp]
  refine ⟨heq, ?_⟩
  rw [heq]
  exact immediatelyPrecedes_insertAt masked.id result aid p hp

/-- Witness for C2's amended statement: the overlapping masked element
is placed directly after its anchor. -/
theorem insertMasked_inserts_after_anchor_witness :
    insertMasked [regR] [0] [0] maskM = insertAt (0 + 1) maskM.id [0] ∧
    immediatelyPrecedes 0 maskM.id (insertMasked [regR] [0] [0] maskM) = true :=
  insertMasked_inserts_after_anchor [regR] [0] [0] maskM 0 0 (by decide) (by decide)

/-- Counterexample for C2 as stated: a masked element overlapping a
regular element (phi1 = 0) and closest by the weighted distance is
placed AFTER the regular element's id, not immediately before it: the
merge yields the sequence 0 then 1, and the masked id 1 never
immediately precedes the anchor id 0. -/
theorem mergedMaskedElements_after_counterexample :
    mergedMaskedElements defaultConfig [regR] [0] [maskM] = [0, 1] ∧
    immediatelyPrecedes 1 0 (mergedMaskedElements defaultConfig [regR] [0] [maskM]) =
      false := by
  decide

/-- C3: refuted nontermination witness.  With min_cut_threshold 1 and
resolution scale 1/2, min_gap_bins is 0, the horizontal histogram of the
two stacked boxes over the rectangle (0,0,4,4) is (0, 2), the gap search
returns bin 0, the cut coordinate is y = 0, the split leaves the top
side empty and the bottom side equal to the whole input, and the code
recurses with identical arguments: the recursion never finishes, for any
amount of fuel. -/
theorem recursiveCut_no_progress :
    ∀ fuel : Nat, recursiveCut cfgC3 fuel [eltA, eltB] 0 0 4 4 = none := by
  intro fuel
  induction fuel with
  | zero => rfl
  | succ n ih =>
    have hstep : recursiveCut cfgC3 (n + 1) [eltA, eltB] 0 0 4 4 =
        joinOrders (recursiveCut cfgC3 n [] 0 0 4 0)
          (recursiveCut cfgC3 n [eltA, eltB] 0 0 4 4) := rfl
    rw [hstep, ih]
    cases recursiveCut cfgC3 n [] 0 0 4 0 <;> rfl

/-- C4: the gap scan of find_largest_gap fails to reset its run counters
when a run ends without qualifying, so runs bleed across nonzero bins:
on the histogram (0, 1, 0) with min_gap_size 2 there is no zero-run of
length 2 at all, yet the function returns bin 1, whose count is even
nonzero. -/
theorem findLargestGap_phantom_gap :
    findLargestGap [0, 1, 0] 2 = some 1 ∧ ([0, 1, 0] : List Nat).getD 1 0 ≠ 0 := by
  decide

/-- C5: the comparator of the fallback positional sort yields no
ordering when the vertical centers are NaN: the y-distance test is false
for NaN, and partial_cmp of two NaN values is none, which the source
unwraps - a panic.  This refutes the claim that every comparison
resolves under a total NaN-safe order. -/
theorem sortByPositionCmp_nan_none :
    sortByPositionCmp defaultConfig.sameRowTolerance
      (F32.val (1/2)) F32.nan (F32.val (5/2)) F32.nan = none := by
  decide

/-- C6 (amended): compute_order performs no validation of the page
rectangle; an empty element list yields the empty result for every
rectangle and configuration, but an invalid rectangle with a non-empty
element list is processed like any other input. -/
theorem computeOrder_empty_input (cfg : XYCutConfig) (fuel : Nat)
    (xMin yMin xMax yMax : ℚ) :
    computeOrder cfg (fuel + 1) [] xMin yMin xMax yMax = some [] := rfl

/-- Counterexample for C6 as stated: on the degenerate rectangle
(0,0,-1,-1), whose width -1 - 0 is non-positive, a single-element input
produces the non-empty order (0), not the empty sequence the claimed
validation would give. -/
theorem computeOrder_no_validation_counterexample :
    computeOrder defaultConfig 3 [eltC6] 0 0 (-1) (-1) = some [0] ∧
    ((-1 : ℚ) - 0 ≤ 0) ∧ (some [0] ≠ some ([] : List Nat)) := by
  decide

/-- C7 (amended): the matcher scans the fixed regular order, not the
growing result: any returned best anchor is an id occurring in the
regular order that resolves to a regular element whose priority is at
least the masked element's priority; previously inserted masked
elements are never candidates. -/
theorem findBestAnchor_scope (masked : Elt) (regs : List Elt) (order : List Nat)
    (aid : Nat) (h : findBestAnchor masked regs order = some aid) :
    aid ∈ order ∧ ∃ r, regs.find? (fun e => e.id == aid) = some r ∧
      labelPriority masked.label ≤ labelPriority r.label :=
  findBestAnchor_mem h

/-- Witness for C7's amended statement at a concrete anchor search. -/
theorem findBestAnchor_scope_witness :
    (0 : Nat) ∈ [0] ∧ ∃ r, [regR].find? (fun e => e.id == 0) = some r ∧
      labelPriority maskM.label ≤ labelPriority r.label :=
  findBestAnchor_scope maskM [regR] [0] 0 (by decide)

/-- Counterexample for C7 as stated: with no regular elements and two
masked titles of equal priority, the first title (id 1) is already in
the growing result when the second (id 2) is placed, and by the claim it
would be an eligible anchor; but the code's anchor scan ranges only over
the (empty) regular order and finds none, so both ids are placed by the
fallback, yielding (1, 2). -/
theorem findBestAnchor_ignores_result_counterexample :
    mergedMaskedElements defaultConfig [] [] [maskT1, maskT2] = [1, 2] ∧
    findBestAnchor maskT2 [] [] = none ∧
    labelPriority maskT2.label ≤ labelPriority maskT1.label := by
  decide

/-- C8 (amended): the early-exit pruning preserves the selected anchor
whenever the weighted components evaluated after a possible exit point
(w2 phi2, w3 phi3 and w4 phi4) are nonnegative for every regular
element; without that restriction the pruning can change the selection,
because phi3 and phi4 can be negative. -/
theorem findBestAnchor_pruning_sound (masked : Elt) (regs : List Elt) (order : List Nat)
    (H : ∀ r ∈ regs, 0 ≤ w2 masked * phi2 masked r ∧ 0 ≤ w3 masked * phi3 masked r ∧
      0 ≤ w4 masked * phi4 r) :
    findBestAnchor masked regs order = findBestAnchorFull masked regs order :=
  findBestAnchor_pruned_eq_full masked regs order H

/-- Witness for C8's amended statement at a configuration with
nonnegative later components. -/
theorem findBestAnchor_pruning_sound_witness :
    findBestAnchor maskM [regR] [0] = findBestAnchorFull maskM [regR] [0] :=
  findBestAnchor_pruning_sound maskM [regR] [0] (by decide)

/-- Counterexample for C8 as stated: for the CrossLayout masked element
and the two regular candidates below, the pruned loop keeps the first
candidate (id 0) because the second is abandoned right after its
phi1 = 100 component, yet the full 4-component sum of the second
candidate (id 1) is far smaller thanks to its large negative phi4
term: pruning changes the selected anchor. -/
theorem findBestAnchor_pruning_changes_choice :
    findBestAnchor maskC8 [regA8, regB8] [0, 1] = some 0 ∧
    findBestAnchorFull maskC8 [regA8, regB8] [0, 1] = some 1 := by
  decide
